import Mathlib

/-!
Verification development for the poster-composition core of `working.py`.

The Python code is shallowly embedded:
  * PIL images become `Bitmap` values (mode, width, height, pixel function);
  * Python float arithmetic on sizes becomes exact rational arithmetic
    followed by truncation, matching the `int(...)` casts in the source;
  * in-place mutation (`Image.paste`, `Image.thumbnail`, drawing on an
    `ImageDraw` handle) is modelled with an explicit heap of bitmaps,
    so that statements about absence of mutation are meaningful;
  * external effects (font rasterization, LANCZOS resampling kernels,
    text measurement, HTTP responses of the background API) are
    parameters of the embedding, universally quantified in theorems.
-/

namespace PosterApp

/-- One pixel: four 8-bit channels.  RGB images are stored with `a = 255`. -/
structure Pixel where
  r : ℕ
  g : ℕ
  b : ℕ
  a : ℕ
deriving DecidableEq

/-- PIL image mode, restricted to the two modes the program uses. -/
inductive Mode where
  | RGB
  | RGBA
deriving DecidableEq

/-- A PIL image value: mode, size and pixel data. -/
structure Bitmap where
  mode : Mode
  width : ℕ
  height : ℕ
  pix : ℕ → ℕ → Pixel

instance : Inhabited Pixel := ⟨⟨0, 0, 0, 255⟩⟩

instance : Inhabited Bitmap := ⟨⟨Mode.RGB, 0, 0, fun _ _ => default⟩⟩

/-- PIL `Image.new(mode, (w, h), color)`. -/
def image_new (m : Mode) (width height : ℕ) (c : Pixel) : Bitmap :=
  ⟨m, width, height, fun _ _ => c⟩

/-- PIL `draw.line([(0, y), (xEnd, y)], fill=c)`: a horizontal line, clipped to
the image width (PIL includes both endpoints of the segment). -/
def draw_line_h (b : Bitmap) (y xEnd : ℕ) (c : Pixel) : Bitmap :=
  { b with pix := fun x0 y0 => if y0 = y ∧ x0 ≤ xEnd ∧ x0 < b.width then c else b.pix x0 y0 }

/-- One interpolated channel of `create_gradient_background`:
`int(c1 * (1 - ratio) + c2 * ratio)` with `ratio = y / height`.
The operands are nonnegative, so Python truncation is the floor. -/
def gradient_channel (c1 c2 : ℕ) (y height : ℕ) : ℕ :=
  ⌊(c1 : ℚ) * (1 - (y : ℚ) / (height : ℚ)) + (c2 : ℚ) * ((y : ℚ) / (height : ℚ))⌋₊

/-- The full interpolated row color of `create_gradient_background` at row `y`. -/
def gradient_color (c1 c2 : ℕ × ℕ × ℕ) (y height : ℕ) : Pixel :=
  ⟨gradient_channel c1.1 c2.1 y height,
   gradient_channel c1.2.1 c2.2.1 y height,
   gradient_channel c1.2.2 c2.2.2 y height, 255⟩

/-- Python `create_gradient_background(width, height, color1, color2)`:
a fresh RGB image, then one horizontal line per row `y` in `range(height)`
with the interpolated fill. -/
def create_gradient_background (width height : ℕ) (color1 color2 : ℕ × ℕ × ℕ) : Bitmap :=
  (List.range height).foldl
    (fun image y => draw_line_h image y width (gradient_color color1 color2 y height))
    (image_new Mode.RGB width height ⟨0, 0, 0, 255⟩)

/-- Python `create_fallback_background(width, height)`. -/
def create_fallback_background (width height : ℕ) : Bitmap :=
  create_gradient_background width height (100, 150, 255) (150, 200, 255)

/-- PIL font handles: a loaded truetype font or the built-in default one. -/
inductive Font where
  | truetype (name : String) (size : ℕ)
  | builtin
deriving DecidableEq

/-- Python `get_font(size)`: try `DejaVuSans.ttf`, on IOError fall back to
`ImageFont.load_default()`.  Whether the font file is present is an
environment parameter. -/
def get_font (fontAvailable : Bool) (size : ℕ) : Font :=
  if fontAvailable then Font.truetype "DejaVuSans.ttf" size else Font.builtin

/-- One `draw.text((x, y), text, font=font, fill=fill)` call, recorded with
its arguments. -/
structure DrawOp where
  x : ℤ
  y : ℤ
  text : String
  font : Font
  fill : String
deriving DecidableEq

/-- Python `range(a, b)` as a list of integers. -/
def pyRange (a b : ℤ) : List ℤ :=
  (List.range (b - a).toNat).map (fun i : ℕ => a + (i : ℤ))

/-- The text width used for centering: `bbox[2] - bbox[0]` from
`draw.textbbox((0, 0), text, font=font)` when that method exists, otherwise
the width returned by `draw.textsize(text, font=font)` (older Pillow). -/
def measured_text_width (hasTextbbox : Bool) (textbbox : String → Font → ℤ × ℤ × ℤ × ℤ)
    (textsize : String → Font → ℕ × ℕ) (text : String) (font : Font) : ℤ :=
  if hasTextbbox then (textbbox text font).2.2.1 - (textbbox text font).1
  else ((textsize text font).1 : ℤ)

/-- The draw x-coordinate after the optional centering adjustment
`x -= width // 2` (Python floor division). -/
def centered_x (hasTextbbox : Bool) (textbbox : String → Font → ℤ × ℤ × ℤ × ℤ)
    (textsize : String → Font → ℕ × ℕ) (text : String) (font : Font)
    (x : ℤ) (center : Bool) : ℤ :=
  if center then x - (measured_text_width hasTextbbox textbbox textsize text font).fdiv 2
  else x

/-- Python `draw_text_with_outline(draw, text, x, y, font, fill_color, outline_color, center)`:
the sequence of `draw.text` calls it performs, in order.  The two nested
loops run `dx` and `dy` over `range(-2, 3)`, skip `(0, 0)`, and draw the
outline; then one final draw in the fill color. -/
def draw_text_with_outline (hasTextbbox : Bool) (textbbox : String → Font → ℤ × ℤ × ℤ × ℤ)
    (textsize : String → Font → ℕ × ℕ) (text : String) (x y : ℤ) (font : Font)
    (fill_color outline_color : String) (center : Bool) : List DrawOp :=
  let x1 := centered_x hasTextbbox textbbox textsize text font x center
  ((pyRange (-2) 3).flatMap (fun dx =>
    (pyRange (-2) 3).filterMap (fun dy =>
      if dx ≠ 0 ∨ dy ≠ 0 then some ⟨x1 + dx, y + dy, text, font, outline_color⟩ else none)))
  ++ [⟨x1, y, text, font, fill_color⟩]

/-- The offset pairs `(dx, dy)` generated by the two nested outline loops. -/
def outline_offsets : List (ℤ × ℤ) :=
  (pyRange (-2) 3).flatMap (fun dx =>
    (pyRange (-2) 3).filterMap (fun dy =>
      if dx ≠ 0 ∨ dy ≠ 0 then some (dx, dy) else none))

/-! ## Heap model for in-place PIL mutation

Python image objects live on a heap; `Image.copy`, `Image.new`, `convert`
and `alpha_composite` allocate fresh cells, while `paste`, `thumbnail` and
drawing through an `ImageDraw` handle mutate an existing cell. -/

/-- The heap: cell `r` holds the image object with reference `r`. -/
abbrev Heap := List Bitmap

/-- Dereference a heap cell. -/
def heapGet (h : Heap) (r : ℕ) : Bitmap := (h[r]?).getD default

/-- Overwrite a heap cell in place. -/
def heapSet (h : Heap) (r : ℕ) (v : Bitmap) : Heap := h.set r v

/-! ## PIL primitives -/

/-- PIL `img.convert(mode)`: returns a new image in the target mode; converting
RGB to RGBA makes the image fully opaque, converting to RGB drops alpha
(pixels of an RGB image carry `a = 255` by convention). -/
def convert_mode (b : Bitmap) (m : Mode) : Bitmap :=
  ⟨m, b.width, b.height, fun x y =>
    match m with
    | Mode.RGBA => if b.mode = Mode.RGBA then b.pix x y else { b.pix x y with a := 255 }
    | Mode.RGB => { b.pix x y with a := 255 }⟩

/-- PIL `Image.alpha_composite(dst, src)`: the standard alpha-over operator,
computed in exact rational arithmetic and truncated per channel.  The
result has the size of `dst` (PIL requires equal sizes). -/
def alpha_composite (dst src : Bitmap) : Bitmap :=
  ⟨Mode.RGBA, dst.width, dst.height, fun x y =>
    let p := dst.pix x y
    let q := src.pix x y
    let oa : ℚ := (q.a : ℚ) + (p.a : ℚ) * ((255 : ℚ) - (q.a : ℚ)) / 255
    if oa = 0 then ⟨0, 0, 0, 0⟩
    else
      ⟨⌊((q.r : ℚ) * (q.a : ℚ) + (p.r : ℚ) * (p.a : ℚ) * ((255 : ℚ) - (q.a : ℚ)) / 255) / oa⌋₊,
       ⌊((q.g : ℚ) * (q.a : ℚ) + (p.g : ℚ) * (p.a : ℚ) * ((255 : ℚ) - (q.a : ℚ)) / 255) / oa⌋₊,
       ⌊((q.b : ℚ) * (q.a : ℚ) + (p.b : ℚ) * (p.a : ℚ) * ((255 : ℚ) - (q.a : ℚ)) / 255) / oa⌋₊,
       ⌊oa⌋₊⟩⟩

/-- PIL `dst.paste(src, (px, py), src)`: pastes `src` at `(px, py)` using the
alpha band of `src` itself as the mask, blending each band; pixels outside
the paste region (or outside `dst`) are untouched.  Mutates `dst` in
Python; here it computes the new value of the mutated cell. -/
def paste_mask (dst src : Bitmap) (px py : ℤ) : Bitmap :=
  ⟨dst.mode, dst.width, dst.height, fun x y =>
    if px ≤ (x : ℤ) ∧ (x : ℤ) < px + (src.width : ℤ) ∧
        py ≤ (y : ℤ) ∧ (y : ℤ) < py + (src.height : ℤ) ∧
        x < dst.width ∧ y < dst.height then
      let q := src.pix ((x : ℤ) - px).toNat ((y : ℤ) - py).toNat
      let p := dst.pix x y
      ⟨⌊((q.r : ℚ) * (q.a : ℚ) + (p.r : ℚ) * ((255 : ℚ) - (q.a : ℚ))) / 255⌋₊,
       ⌊((q.g : ℚ) * (q.a : ℚ) + (p.g : ℚ) * ((255 : ℚ) - (q.a : ℚ))) / 255⌋₊,
       ⌊((q.b : ℚ) * (q.a : ℚ) + (p.b : ℚ) * ((255 : ℚ) - (q.a : ℚ))) / 255⌋₊,
       ⌊((q.a : ℚ) * (q.a : ℚ) + (p.a : ℚ) * ((255 : ℚ) - (q.a : ℚ))) / 255⌋₊⟩
    else dst.pix x y⟩

/-- Pillow `round_aspect(number, key)`: `max(min(floor(number), ceil(number),
key=key), 1)` — on a key tie Python `min` keeps the first argument, the
floor. -/
def round_aspect (q : ℚ) (key : ℤ → ℚ) : ℤ :=
  max (if key ⌈q⌉ < key ⌊q⌋ then ⌈q⌉ else ⌊q⌋) 1

/-- The target size computed by Pillow `Image.thumbnail((maxW, maxH))`:
unchanged if the image already fits, otherwise scaled preserving the
aspect ratio `width / height`, rounding the free coordinate to the
neighbouring integer whose aspect is closest. -/
def thumbnail_size (w h maxW maxH : ℕ) : ℕ × ℕ :=
  if maxW ≥ w ∧ maxH ≥ h then (w, h)
  else
    let aspect : ℚ := (w : ℚ) / (h : ℚ)
    if (maxW : ℚ) / (maxH : ℚ) ≥ aspect then
      ((round_aspect ((maxH : ℚ) * aspect) (fun n => |aspect - (n : ℚ) / (maxH : ℚ)|)).toNat,
       maxH)
    else
      (maxW,
       (round_aspect ((maxW : ℚ) / aspect)
         (fun n => if n = 0 then 0 else |aspect - (maxW : ℚ) / (n : ℚ)|)).toNat)

/-- PIL `img.thumbnail((maxW, maxH), Image.Resampling.LANCZOS)`: in-place
downscale; the pixel data of the resized image comes from the resampling
kernel, an environment parameter. -/
def thumbnail_bitmap (resample : Bitmap → ℕ → ℕ → ℕ → ℕ → Pixel)
    (b : Bitmap) (maxW maxH : ℕ) : Bitmap :=
  if maxW ≥ b.width ∧ maxH ≥ b.height then b
  else
    let s := thumbnail_size b.width b.height maxW maxH
    ⟨b.mode, s.1, s.2, resample b s.1 s.2⟩

/-- Python `process_logo(logo_image, max_size)` on the heap.  `fault` is true when
some step inside the `try` block raises (the `except` clause returns
`None`).  A missing logo returns `None` before the `try` block. -/
def process_logo (resample : Bitmap → ℕ → ℕ → ℕ → ℕ → Pixel) (fault : Bool)
    (h : Heap) (logoRef : Option ℕ) (max_size : ℕ) : Heap × Option ℕ :=
  match logoRef with
  | none => (h, none)
  | some r =>
    if fault then (h, none)
    else
      let h1 := h ++ [heapGet h r]
      let copyRef := h.length
      let h2 := heapSet h1 copyRef
        (thumbnail_bitmap resample (heapGet h1 copyRef) max_size max_size)
      if (heapGet h2 copyRef).mode ≠ Mode.RGBA then
        (h2 ++ [convert_mode (heapGet h2 copyRef) Mode.RGBA], some h2.length)
      else
        (h2, some copyRef)

/-- Python default whitespace for `str.strip()` (ASCII range). -/
def py_is_space (c : Char) : Bool :=
  c = ' ' || c = '\t' || c = '\n' || c = '\r' || c = '\x0b' || c = '\x0c'

/-- Python `s.split(chr(10))` on a character list: split at every newline,
keeping empty segments. -/
def split_nl : List Char → List (List Char)
  | [] => [[]]
  | c :: cs =>
    match split_nl cs with
    | [] => [[]]
    | r :: rs => if c = '\n' then [] :: r :: rs else (c :: r) :: rs

/-- Python `line.strip()`: drop leading and trailing whitespace. -/
def py_strip (s : String) : String :=
  String.mk (((s.data.dropWhile py_is_space).reverse.dropWhile py_is_space).reverse)

/-- Python `details.split(chr(10))` on a string. -/
def py_split_nl (s : String) : List String := (split_nl s.data).map String.mk

/-- Python `[line.strip() for line in details.split(chr(10)) if line.strip()]`:
split on newlines, strip whitespace, drop lines that are empty after
stripping. -/
def details_lines (details : String) : List String :=
  ((py_split_nl details).map py_strip).filter (fun line => line ≠ "")

/-- Environment parameters of the compositing pipeline: the pixel effect of
one `draw.text` call, the text measurement functions and their
availability, font-file availability, and the resampling kernel. -/
structure Env where
  renderText : DrawOp → (ℕ → ℕ → Pixel) → (ℕ → ℕ → Pixel)
  hasTextbbox : Bool
  textbbox : String → Font → ℤ × ℤ × ℤ × ℤ
  textsize : String → Font → ℕ × ℕ
  fontAvailable : Bool
  resample : Bitmap → ℕ → ℕ → ℕ → ℕ → Pixel

/-- Apply one recorded `draw.text` call to a surface: only the pixel data
changes, never size or mode. -/
def apply_draw_op (env : Env) (op : DrawOp) (b : Bitmap) : Bitmap :=
  { b with pix := env.renderText op b.pix }

/-- Apply a sequence of recorded `draw.text` calls in order. -/
def apply_draw_ops (env : Env) (ops : List DrawOp) (b : Bitmap) : Bitmap :=
  ops.foldl (fun b0 op => apply_draw_op env op b0) b

/-- One `draw_text_with_outline(draw, ...)` call where `draw` is the
`ImageDraw` handle of the heap cell `overlayRef`: mutates that cell by
applying all recorded draw calls. -/
def draw_text_on (env : Env) (h : Heap) (overlayRef : ℕ) (text : String)
    (x y : ℤ) (font : Font) (fill_color outline_color : String) (center : Bool) : Heap :=
  heapSet h overlayRef
    (apply_draw_ops env
      (draw_text_with_outline env.hasTextbbox env.textbbox env.textsize text x y font
        fill_color outline_color center)
      (heapGet h overlayRef))

/-- The recorded draw calls of the details loop: each surviving line is
drawn centered at the running cursor, which then advances by `step`. -/
def layout_detail_ops (env : Env) (lines : List String) (xc : ℤ) (y0 : ℕ)
    (font : Font) (step : ℕ) : List DrawOp :=
  match lines with
  | [] => []
  | line :: rest =>
    draw_text_with_outline env.hasTextbbox env.textbbox env.textsize line xc (y0 : ℤ) font
      "lightgray" "black" true
    ++ layout_detail_ops env rest xc (y0 + step) font step

/-- All recorded draw calls of `apply_text_layout` on the text overlay:
optional subtitle (white fill), then the surviving detail lines
(lightgray fill), with the geometry of the source. -/
def layout_text_ops (env : Env) (width height : ℕ) (subtitle details : String) :
    List DrawOp :=
  let base_size := min width height / 15
  let subtitle_size := ⌊(base_size : ℚ) * 0.8⌋₊
  let details_size := ⌊(base_size : ℚ) * 0.5⌋₊
  let subtitle_font := get_font env.fontAvailable subtitle_size
  let details_font := get_font env.fontAvailable details_size
  let y_pos := height / 3
  let spacing := ⌊(base_size : ℚ) * 1.2⌋₊
  let subOps :=
    if subtitle ≠ "" then
      draw_text_with_outline env.hasTextbbox env.textbbox env.textsize subtitle
        ((width / 2 : ℕ) : ℤ) (y_pos : ℤ) subtitle_font "white" "black" true
    else []
  let y1 := if subtitle ≠ "" then y_pos + spacing else y_pos
  subOps ++
    (if details ≠ "" then
      layout_detail_ops env (details_lines details) ((width / 2 : ℕ) : ℤ) y1 details_font
        ⌊(details_size : ℚ) * 1.5⌋₊
    else [])

/-- Python `apply_text_layout(image, subtitle, details, logo)` on the heap,
mirroring the source line by line:
`poster = image.copy().convert(RGBA)` (two fresh cells);
`overlay = Image.new(RGBA, size, (0,0,0,0))`;
`color_overlay = Image.new(RGBA, size, (0,0,0,80))`;
`poster = alpha_composite(poster, color_overlay)` (fresh cell, rebinding);
font sizes and cursor geometry; optional centered subtitle on the overlay;
the details loop on the overlay; optional in-place logo paste on the
darkened poster; `alpha_composite(poster, overlay)` and `convert(RGB)`.
Returns the final heap and the reference of the result. -/
def apply_text_layout (env : Env) (h : Heap) (imageRef : ℕ)
    (subtitle details : String) (logoRef : Option ℕ) : Heap × ℕ :=
  let image := heapGet h imageRef
  let h1 := h ++ [image]
  let h2 := h1 ++ [convert_mode (heapGet h1 h.length) Mode.RGBA]
  let posterRef := h1.length
  let width := (heapGet h2 posterRef).width
  let height := (heapGet h2 posterRef).height
  let h3 := h2 ++ [image_new Mode.RGBA width height ⟨0, 0, 0, 0⟩]
  let overlayRef := h2.length
  let h4 := h3 ++ [image_new Mode.RGBA width height ⟨0, 0, 0, 80⟩]
  let colorRef := h3.length
  let h5 := h4 ++ [alpha_composite (heapGet h4 posterRef) (heapGet h4 colorRef)]
  let posterRef2 := h4.length
  let base_size := min width height / 15
  let subtitle_size := ⌊(base_size : ℚ) * 0.8⌋₊
  let details_size := ⌊(base_size : ℚ) * 0.5⌋₊
  let subtitle_font := get_font env.fontAvailable subtitle_size
  let details_font := get_font env.fontAvailable details_size
  let y_pos := height / 3
  let spacing := ⌊(base_size : ℚ) * 1.2⌋₊
  let afterSub : Heap × ℕ :=
    if subtitle ≠ "" then
      (draw_text_on env h5 overlayRef subtitle ((width / 2 : ℕ) : ℤ) (y_pos : ℤ)
        subtitle_font "white" "black" true,
       y_pos + spacing)
    else (h5, y_pos)
  let afterDet : Heap × ℕ :=
    if details ≠ "" then
      (details_lines details).foldl
        (fun st line =>
          (draw_text_on env st.1 overlayRef line ((width / 2 : ℕ) : ℤ) (st.2 : ℤ)
            details_font "lightgray" "black" true,
           st.2 + ⌊(details_size : ℚ) * 1.5⌋₊))
        afterSub
    else afterSub
  let h7 := afterDet.1
  let h8 :=
    match logoRef with
    | some lr =>
      heapSet h7 posterRef2
        (paste_mask (heapGet h7 posterRef2) (heapGet h7 lr)
          ((width : ℤ) - ((heapGet h7 lr).width : ℤ) - 40) 40)
    | none => h7
  let h9 := h8 ++ [alpha_composite (heapGet h8 posterRef2) (heapGet h8 overlayRef)]
  let h10 := h9 ++ [convert_mode (heapGet h9 h8.length) Mode.RGB]
  (h10, h9.length)

/-- Variant of `apply_text_layout` with the logo-paste step removed entirely (the body
of `if logo:` deleted); used to state the absent-logo behaviour. -/
def apply_text_layout_skip_logo (env : Env) (h : Heap) (imageRef : ℕ)
    (subtitle details : String) : Heap × ℕ :=
  let image := heapGet h imageRef
  let h1 := h ++ [image]
  let h2 := h1 ++ [convert_mode (heapGet h1 h.length) Mode.RGBA]
  let posterRef := h1.length
  let width := (heapGet h2 posterRef).width
  let height := (heapGet h2 posterRef).height
  let h3 := h2 ++ [image_new Mode.RGBA width height ⟨0, 0, 0, 0⟩]
  let overlayRef := h2.length
  let h4 := h3 ++ [image_new Mode.RGBA width height ⟨0, 0, 0, 80⟩]
  let colorRef := h3.length
  let h5 := h4 ++ [alpha_composite (heapGet h4 posterRef) (heapGet h4 colorRef)]
  let posterRef2 := h4.length
  let base_size := min width height / 15
  let subtitle_size := ⌊(base_size : ℚ) * 0.8⌋₊
  let details_size := ⌊(base_size : ℚ) * 0.5⌋₊
  let subtitle_font := get_font env.fontAvailable subtitle_size
  let details_font := get_font env.fontAvailable details_size
  let y_pos := height / 3
  let spacing := ⌊(base_size : ℚ) * 1.2⌋₊
  let afterSub : Heap × ℕ :=
    if subtitle ≠ "" then
      (draw_text_on env h5 overlayRef subtitle ((width / 2 : ℕ) : ℤ) (y_pos : ℤ)
        subtitle_font "white" "black" true,
       y_pos + spacing)
    else (h5, y_pos)
  let afterDet : Heap × ℕ :=
    if details ≠ "" then
      (details_lines details).foldl
        (fun st line =>
          (draw_text_on env st.1 overlayRef line ((width / 2 : ℕ) : ℤ) (st.2 : ℤ)
            details_font "lightgray" "black" true,
           st.2 + ⌊(details_size : ℚ) * 1.5⌋₊))
        afterSub
    else afterSub
  let h7 := afterDet.1
  let h9 := h7 ++ [alpha_composite (heapGet h7 posterRef2) (heapGet h7 overlayRef)]
  let h10 := h9 ++ [convert_mode (heapGet h9 h7.length) Mode.RGB]
  (h10, h9.length)

/-- The finished text overlay: all recorded draw calls applied to a fresh
fully transparent RGBA surface. -/
def text_overlay_of (env : Env) (width height : ℕ) (subtitle details : String) : Bitmap :=
  apply_draw_ops env (layout_text_ops env width height subtitle details)
    (image_new Mode.RGBA width height ⟨0, 0, 0, 0⟩)

/-- The layer composition described by the specification, in its stated
order: darken the alpha-capable base with a uniform black layer of the
given alpha; paste the processed logo (if any) with its own alpha as mask
at `(width - logoWidth - 40, 40)` onto the darkened base; alpha-composite
the text overlay on top; drop alpha. -/
def compose_layers_spec (base : Bitmap) (darkAlpha : ℕ) (logo : Option Bitmap)
    (textOverlay : Bitmap) : Bitmap :=
  let darkened := alpha_composite base (image_new Mode.RGBA base.width base.height ⟨0, 0, 0, darkAlpha⟩)
  let withLogo :=
    match logo with
    | some l => paste_mask darkened l ((base.width : ℤ) - (l.width : ℤ) - 40) 40
    | none => darkened
  convert_mode (alpha_composite withLogo textOverlay) Mode.RGB

/-- The seven cells `apply_text_layout` appends to the heap, in allocation
order: the copy of the input, its RGBA conversion, the finished text
overlay, the darkening layer, the darkened (and possibly logo-pasted)
poster, the flattened composite, and the final RGB conversion. -/
def apply_text_layout_cells (env : Env) (image : Bitmap) (subtitle details : String)
    (logo : Option Bitmap) : List Bitmap :=
  let poster1 := convert_mode image Mode.RGBA
  let width := poster1.width
  let height := poster1.height
  let overlayF := text_overlay_of env width height subtitle details
  let dark := image_new Mode.RGBA width height ⟨0, 0, 0, 80⟩
  let poster2 := alpha_composite poster1 dark
  let poster3 :=
    match logo with
    | some l => paste_mask poster2 l ((width : ℤ) - (l.width : ℤ) - 40) 40
    | none => poster2
  let finalImg := alpha_composite poster3 overlayF
  [image, poster1, overlayF, dark, poster3, finalImg, convert_mode finalImg Mode.RGB]

/-! ## Heap algebra -/

@[simp] lemma heapSet_length (h : Heap) (r : ℕ) (v : Bitmap) :
    (heapSet h r v).length = h.length := by
  rw [heapSet]
  exact List.length_set h r v

/-! ## Facts about applying recorded draw calls -/

/-- A concrete environment for evaluating the pipeline at specific inputs:
text rasterization is the identity on pixels, measurements are zero, and
the resampling kernel samples the source pixel grid directly. -/
def env0 : Env where
  renderText := fun _ p => p
  hasTextbbox := true
  textbbox := fun _ _ => (0, 0, 0, 0)
  textsize := fun _ _ => (0, 0)
  fontAvailable := true
  resample := fun b _ _ x y => b.pix x y

/-- A concrete 6 by 4 background. -/
def bmA : Bitmap := image_new Mode.RGB 6 4 ⟨10, 20, 30, 255⟩

/-- A concrete 400 by 300 logo. -/
def bmLogo : Bitmap := image_new Mode.RGB 400 300 ⟨5, 5, 5, 255⟩

/-- A concrete two-cell heap: background and logo. -/
def heap2 : Heap := [bmA, bmLogo]

/-! ## Thumbnail size bounds -/

/-! ## The background API call and the poster entry point -/

/-- Outcome of one `requests.post` attempt against the inference API. -/
inductive ApiResp where
  | success (img : Bitmap)
  | httpStatus (code : ℕ) (body : String)
  | requestException (msg : String)

/-- A Python exception escaping the embedded code. -/
inductive PyErr where
  | nameError (name : String)
deriving DecidableEq

/-- The retry loop `for i in range(retries)` of `create_background_via_api`.
On HTTP 200 the decoded image is returned.  On HTTP 503 the source executes
`time.sleep(15)` before `continue` — but the module `time` is never imported
in `working.py`, so the name lookup raises `NameError`, which the
`except requests.exceptions.RequestException` clause does not catch; the
recursive call `api_retry_loop responses (i + 1) fuel` that would model the
next attempt is therefore unreachable.  Any other status or a request
exception breaks out of the loop (`none`, leading to the fallback). -/
def api_retry_loop (responses : ℕ → ApiResp) : ℕ → ℕ → Except PyErr (Option Bitmap)
  | _, 0 => Except.ok none
  | i, fuel + 1 =>
    match responses i with
    | ApiResp.success img => Except.ok (some img)
    | ApiResp.httpStatus code _ =>
      if code = 503 then Except.error (PyErr.nameError "time")
      else Except.ok none
    | ApiResp.requestException _ => Except.ok none

/-- Python `create_background_via_api(prompt, width, height, retries=3)`: without a
token, fall back immediately; otherwise run the retry loop, propagating any
uncaught exception, and fall back when the loop ends without an image. -/
def create_background_via_api (_prompt : String) (token : Option String)
    (responses : ℕ → ApiResp) (width height : ℕ) (retries : ℕ) :
    Except PyErr Bitmap :=
  match token with
  | none => Except.ok (create_fallback_background width height)
  | some _ =>
    match api_retry_loop responses 0 retries with
    | Except.error e => Except.error e
    | Except.ok (some img) => Except.ok img
    | Except.ok none => Except.ok (create_fallback_background width height)

/-- The aspect-ratio dictionary of `generate_simple_poster`. -/
def aspect_table : List (String × ℕ × ℕ) :=
  [("1:1 - Square", (1024, 1024)),
   ("2:3 - Portrait", (683, 1024)),
   ("3:2 - Landscape", (1024, 683)),
   ("3:4 - Poster", (768, 1024)),
   ("16:9 - Widescreen", (1024, 576))]

/-- Python `aspect_ratios.get(aspect_ratio, (1024, 1024))`. -/
def aspect_dims (label : String) : ℕ × ℕ :=
  (aspect_table.lookup label).getD (1024, 1024)

/-- Python `generate_simple_poster(prompt, subtitle, details, logo_image, aspect_ratio)`:
select dimensions, call the background API (propagating any uncaught
exception), process the logo, apply the text layout, and return the final
poster bitmap. -/
def generate_simple_poster (env : Env) (token : Option String)
    (responses : ℕ → ApiResp) (fault : Bool) (prompt subtitle details : String)
    (logo : Option Bitmap) (aspectLabel : String) : Except PyErr Bitmap :=
  let wh := aspect_dims aspectLabel
  match create_background_via_api prompt token responses wh.1 wh.2 3 with
  | Except.error e => Except.error e
  | Except.ok background =>
    let h0 : Heap := [background]
    let hlogo : Heap × Option ℕ :=
      match logo with
      | some l => (h0 ++ [l], some 1)
      | none => (h0, none)
    let pl := process_logo env.resample fault hlogo.1 hlogo.2 200
    let run := apply_text_layout env pl.1 0 subtitle details pl.2
    Except.ok (heapGet run.1 run.2)

lemma draw_line_h_width (b : Bitmap) (y xEnd : ℕ) (c : Pixel) :
    (draw_line_h b y xEnd c).width = b.width := rfl

/-- After drawing the first `n` rows of the gradient, a pixel in an already
drawn row has the interpolated color, and any other pixel is untouched. -/
lemma gradient_fold_pix (width height : ℕ) (c1 c2 : ℕ × ℕ × ℕ) (n : ℕ) :
    (((List.range n).foldl
        (fun image y => draw_line_h image y width (gradient_color c1 c2 y height))
        (image_new Mode.RGB width height ⟨0, 0, 0, 255⟩)).width = width) ∧
    ∀ x y : ℕ, x < width →
      ((List.range n).foldl
        (fun image y => draw_line_h image y width (gradient_color c1 c2 y height))
        (image_new Mode.RGB width height ⟨0, 0, 0, 255⟩)).pix x y =
      if y < n then gradient_color c1 c2 y height else ⟨0, 0, 0, 255⟩ := by
  induction n with
  | zero => exact ⟨rfl, fun x y hx => by simp [image_new]⟩
  | succ n ih =>
    obtain ⟨ihw, ihp⟩ := ih
    rw [List.range_succ, List.foldl_append]
    refine ⟨by simp [draw_line_h_width, ihw], ?_⟩
    intro x y hx
    simp only [List.foldl_cons, List.foldl_nil]
    rw [draw_line_h]
    by_cases hy : y = n
    · subst hy
      simp [hx, hx.le, ihw, Nat.lt_succ_self]
    · simp only [hy, false_and, if_false]
      rw [ihp x y hx]
      rcases Nat.lt_trichotomy y n with h | h | h
      · simp [h, Nat.lt_succ_of_lt h]
      · exact absurd h hy
      · have h1 : ¬ y < n := Nat.not_lt.mpr (Nat.le_of_lt h)
        have h2 : ¬ y < n + 1 := Nat.not_lt.mpr h
        simp [h1, h2]

/-- Claim C3: for every width > 0, height > 0 and colors, `create_gradient_background`
is deterministic (repeated calls give identical bitmaps); for each row `y` in
`[0, height)` and each column `x`, every channel of the pixel equals
`colorTop * (1 - ratio) + colorBottom * ratio` with `ratio = y / height`,
truncated to integer; in particular the top row equals `colorTop` exactly. -/
theorem claim_C3_gradient_rows (width height : ℕ) (c1 c2 : ℕ × ℕ × ℕ) (x y : ℕ)
    (hx : x < width) (hy : y < height) :
    create_gradient_background width height c1 c2 =
      create_gradient_background width height c1 c2 ∧
    (create_gradient_background width height c1 c2).pix x y =
      ⟨⌊(c1.1 : ℚ) * (1 - (y : ℚ) / (height : ℚ)) + (c2.1 : ℚ) * ((y : ℚ) / (height : ℚ))⌋₊,
       ⌊(c1.2.1 : ℚ) * (1 - (y : ℚ) / (height : ℚ)) + (c2.2.1 : ℚ) * ((y : ℚ) / (height : ℚ))⌋₊,
       ⌊(c1.2.2 : ℚ) * (1 - (y : ℚ) / (height : ℚ)) + (c2.2.2 : ℚ) * ((y : ℚ) / (height : ℚ))⌋₊,
       255⟩ ∧
    (create_gradient_background width height c1 c2).pix x 0 =
      ⟨c1.1, c1.2.1, c1.2.2, 255⟩ := by
  have P := gradient_fold_pix width height c1 c2 height
  refine ⟨rfl, ?_, ?_⟩
  · rw [create_gradient_background, P.2 x y hx, if_pos hy]
    rfl
  · have h0 : 0 < height := Nat.pos_of_ne_zero (fun h => by simp [h] at hy)
    rw [create_gradient_background, P.2 x 0 hx, if_pos h0]
    simp [gradient_color, gradient_channel]

theorem claim_C3_gradient_rows_witness :
    (0 : ℕ) < 2 ∧ (1 : ℕ) < 2 ∧
    (create_gradient_background 2 2 (100, 150, 255) (150, 200, 255)).pix 0 0 =
      ⟨100, 150, 255, 255⟩ :=
  ⟨by decide, by decide,
   (claim_C3_gradient_rows 2 2 (100, 150, 255) (150, 200, 255) 0 1
     (by decide) (by decide)).2.2⟩

lemma outline_offsets_eq :
    outline_offsets =
      [(-2, -2), (-2, -1), (-2, 0), (-2, 1), (-2, 2),
       (-1, -2), (-1, -1), (-1, 0), (-1, 1), (-1, 2),
       (0, -2), (0, -1), (0, 1), (0, 2),
       (1, -2), (1, -1), (1, 0), (1, 1), (1, 2),
       (2, -2), (2, -1), (2, 0), (2, 1), (2, 2)] := by
  decide

lemma outline_offsets_nodup : outline_offsets.Nodup := by
  rw [outline_offsets_eq]
  decide

lemma pyRange_neg2_3 : pyRange (-2) 3 = [-2, -1, 0, 1, 2] := by decide

lemma mem_pyRange {a b z : ℤ} (hab : a ≤ b) : z ∈ pyRange a b ↔ a ≤ z ∧ z < b := by
  rw [pyRange, List.mem_map]
  constructor
  · rintro ⟨i, hi, rfl⟩
    rw [List.mem_range] at hi
    have h1 : (0 : ℤ) ≤ b - a := by linarith
    have h2 : ((b - a).toNat : ℤ) = b - a := Int.toNat_of_nonneg h1
    have hi0 : (0 : ℤ) ≤ (i : ℤ) := Int.natCast_nonneg i
    have hi2 : ((i : ℤ)) < ((b - a).toNat : ℤ) := by exact_mod_cast hi
    constructor <;> linarith
  · intro h
    have h1 : (0 : ℤ) ≤ z - a := by linarith [h.1]
    have h3 : ((z - a).toNat : ℤ) = z - a := Int.toNat_of_nonneg h1
    refine ⟨(z - a).toNat, ?_, by linarith⟩
    rw [List.mem_range]
    have h2 : (0 : ℤ) ≤ b - a := by linarith [h.1, h.2]
    have h4 : ((b - a).toNat : ℤ) = b - a := Int.toNat_of_nonneg h2
    have h5 : ((z - a).toNat : ℤ) < ((b - a).toNat : ℤ) := by linarith [h.2]
    exact_mod_cast h5

lemma mem_outline_offsets (dx dy : ℤ) :
    (dx, dy) ∈ outline_offsets ↔
      (-2 ≤ dx ∧ dx ≤ 2 ∧ -2 ≤ dy ∧ dy ≤ 2 ∧ ¬(dx = 0 ∧ dy = 0)) := by
  simp only [outline_offsets, List.mem_flatMap, List.mem_filterMap]
  constructor
  · rintro ⟨a, ha, b, hb, hsome⟩
    rw [mem_pyRange (by norm_num)] at ha hb
    by_cases hc : a ≠ 0 ∨ b ≠ 0
    · rw [if_pos hc] at hsome
      have hab : a = dx ∧ b = dy := by
        have := Option.some.injEq (a, b) (dx, dy) ▸ hsome
        simpa [Prod.mk.injEq] using hsome
      omega
    · rw [if_neg hc] at hsome
      exact absurd hsome (by simp)
  · intro h
    refine ⟨dx, ?_, dy, ?_, ?_⟩
    · rw [mem_pyRange (by norm_num)]
      omega
    · rw [mem_pyRange (by norm_num)]
      omega
    · rw [if_pos (by omega)]

set_option maxHeartbeats 1000000 in
lemma outline_map (x1 y : ℤ) (text : String) (font : Font) (oc : String) :
    ((pyRange (-2) 3).flatMap (fun dx =>
      (pyRange (-2) 3).filterMap (fun dy =>
        if dx ≠ 0 ∨ dy ≠ 0 then some (⟨x1 + dx, y + dy, text, font, oc⟩ : DrawOp) else none)))
    = outline_offsets.map (fun p => (⟨x1 + p.1, y + p.2, text, font, oc⟩ : DrawOp)) := by
  rw [pyRange_neg2_3]
  norm_num [outline_offsets, pyRange_neg2_3, List.flatMap_cons, List.flatMap_nil,
    List.filterMap_cons, List.filterMap_nil]

set_option maxHeartbeats 2000000 in
/-- Claim C8: every call to `draw_text_with_outline` draws the text exactly once
in the outline color at `(x1 + dx, y + dy)` for each of the 24 integer offset
pairs with `dx, dy` in `[-2, 2]` and `(dx, dy)` different from `(0, 0)`, and
then draws it exactly once more at `(x1, y)` in the fill color after all the
outline draws, where `x1` is the (possibly centering-adjusted) x-coordinate. -/
theorem claim_C8_outline_pattern (hasTextbbox : Bool)
    (textbbox : String → Font → ℤ × ℤ × ℤ × ℤ) (textsize : String → Font → ℕ × ℕ)
    (text : String) (x y : ℤ) (font : Font) (fill_color outline_color : String)
    (center : Bool) :
    draw_text_with_outline hasTextbbox textbbox textsize text x y font
        fill_color outline_color center =
      (outline_offsets.map (fun p =>
        (⟨centered_x hasTextbbox textbbox textsize text font x center + p.1,
          y + p.2, text, font, outline_color⟩ : DrawOp)))
      ++ [⟨centered_x hasTextbbox textbbox textsize text font x center,
           y, text, font, fill_color⟩] ∧
    outline_offsets.length = 24 ∧
    (∀ dx dy : ℤ, (dx, dy) ∈ outline_offsets ↔
      (-2 ≤ dx ∧ dx ≤ 2 ∧ -2 ≤ dy ∧ dy ≤ 2 ∧ ¬(dx = 0 ∧ dy = 0))) ∧
    (∀ dx dy : ℤ, (dx, dy) ∈ outline_offsets →
      (outline_offsets.map (fun p =>
        (⟨centered_x hasTextbbox textbbox textsize text font x center + p.1,
          y + p.2, text, font, outline_color⟩ : DrawOp))).count
        ⟨centered_x hasTextbbox textbbox textsize text font x center + dx,
         y + dy, text, font, outline_color⟩ = 1) := by
  refine ⟨?_, by decide, ?_, ?_⟩
  · simp only [draw_text_with_outline]
    rw [outline_map]
  · exact mem_outline_offsets
  · intro dx dy hmem
    have hinj : Function.Injective (fun p : ℤ × ℤ =>
        (⟨centered_x hasTextbbox textbbox textsize text font x center + p.1,
          y + p.2, text, font, outline_color⟩ : DrawOp)) := by
      intro p q hpq
      simp only [DrawOp.mk.injEq] at hpq
      exact Prod.ext (by linarith [hpq.1]) (by linarith [hpq.2.1])
    have := List.count_map_of_injective outline_offsets _ hinj (dx, dy)
    rw [this]
    exact List.count_eq_one_of_mem outline_offsets_nodup hmem

/-- Claim C7: with `center = true`, the draw x-coordinate is the requested `x`
minus half the measured text width (bounding-box based, with the simpler
measurement as fallback), so the final fill draw is at that adjusted
position and the horizontal midpoint of the rendered text lies within 1px
of the requested `x`. -/
theorem claim_C7_centering (hasTextbbox : Bool)
    (textbbox : String → Font → ℤ × ℤ × ℤ × ℤ) (textsize : String → Font → ℕ × ℕ)
    (text : String) (x y : ℤ) (font : Font) (fill_color outline_color : String) :
    (draw_text_with_outline hasTextbbox textbbox textsize text x y font
        fill_color outline_color true).getLast? =
      some ⟨x - (measured_text_width hasTextbbox textbbox textsize text font).fdiv 2,
            y, text, font, fill_color⟩ ∧
    |((x - (measured_text_width hasTextbbox textbbox textsize text font).fdiv 2 : ℤ) : ℚ)
        + ((measured_text_width hasTextbbox textbbox textsize text font : ℤ) : ℚ) / 2
        - (x : ℚ)| ≤ 1 := by
  constructor
  · rw [draw_text_with_outline]
    simp only [List.getLast?_concat]
    rw [centered_x, if_pos rfl]
  · set w := measured_text_width hasTextbbox textbbox textsize text font with hw
    have hfd : w.fdiv 2 = w / 2 := Int.fdiv_eq_ediv w (by norm_num)
    have hmod : 2 * (w / 2) + w % 2 = w := Int.ediv_add_emod w 2
    have h0 : 0 ≤ w % 2 := Int.emod_nonneg w (by norm_num)
    have h1 : w % 2 < 2 := Int.emod_lt_of_pos w (by norm_num)
    have hcast : ((x - w.fdiv 2 : ℤ) : ℚ) + ((w : ℤ) : ℚ) / 2 - (x : ℚ)
        = ((w % 2 : ℤ) : ℚ) / 2 := by
      rw [hfd]
      have hc := congrArg (fun z : ℤ => (z : ℚ)) hmod
      push_cast at hc ⊢
      linarith
    rw [hcast]
    rw [abs_le]
    have hq0 : (0 : ℚ) ≤ ((w % 2 : ℤ) : ℚ) := by exact_mod_cast h0
    have hq1 : ((w % 2 : ℤ) : ℚ) ≤ 1 := by exact_mod_cast Int.lt_add_one_iff.mp h1
    constructor <;> linarith

lemma heapGet_append_left {h : Heap} (l : Heap) {i : ℕ} (hi : i < h.length) :
    heapGet (h ++ l) i = heapGet h i := by
  rw [heapGet, heapGet, List.getElem?_append, if_pos hi]

lemma heapGet_append_add (h l : Heap) (k : ℕ) :
    heapGet (h ++ l) (h.length + k) = heapGet l k := by
  rw [heapGet, heapGet, List.getElem?_append, if_neg (by omega)]
  congr 2
  omega

lemma heapGet_concat_self (h : Heap) (v : Bitmap) :
    heapGet (h ++ [v]) h.length = v := by
  have e := heapGet_append_add h [v] 0
  rw [Nat.add_zero] at e
  rw [e, heapGet]
  rfl

lemma heapGet_concat_lt {h : Heap} (v : Bitmap) {i : ℕ} (hi : i < h.length) :
    heapGet (h ++ [v]) i = heapGet h i := heapGet_append_left [v] hi

lemma heapSet_append_add (h l : Heap) (k : ℕ) (v : Bitmap) :
    heapSet (h ++ l) (h.length + k) v = h ++ heapSet l k v := by
  rw [heapSet, heapSet, List.set_append_right]
  · simp
  · omega

lemma heapGet_set_self (h : Heap) (r : ℕ) (v : Bitmap) (hr : r < h.length) :
    heapGet (heapSet h r v) r = v := by
  rw [heapGet, heapSet, List.getElem?_set_self hr]
  rfl

lemma heapGet_set_ne (h : Heap) {r r2 : ℕ} (v : Bitmap) (hne : r ≠ r2) :
    heapGet (heapSet h r v) r2 = heapGet h r2 := by
  rw [heapGet, heapSet, List.getElem?_set_ne hne, heapGet]

lemma heapSet_set (h : Heap) (r : ℕ) (v1 v2 : Bitmap) :
    heapSet (heapSet h r v1) r v2 = heapSet h r v2 := by
  rw [heapSet, heapSet, heapSet, List.set_set]

lemma heapSet_getD_self (h : Heap) (r : ℕ) (hr : r < h.length) :
    heapSet h r (heapGet h r) = h := by
  apply List.ext_getElem?
  intro n
  by_cases hn : n = r
  · subst hn
    rw [heapSet, List.getElem?_set_self hr, heapGet, List.getElem?_eq_getElem hr]
    rfl
  · rw [heapSet, List.getElem?_set_ne (fun hc => hn hc.symm)]

lemma apply_draw_ops_append (env : Env) (ops1 ops2 : List DrawOp) (b : Bitmap) :
    apply_draw_ops env (ops1 ++ ops2) b =
      apply_draw_ops env ops2 (apply_draw_ops env ops1 b) := by
  rw [apply_draw_ops, apply_draw_ops, apply_draw_ops, List.foldl_append]

lemma apply_draw_ops_meta (env : Env) (ops : List DrawOp) (b : Bitmap) :
    (apply_draw_ops env ops b).mode = b.mode ∧
    (apply_draw_ops env ops b).width = b.width ∧
    (apply_draw_ops env ops b).height = b.height := by
  induction ops generalizing b with
  | nil => exact ⟨rfl, rfl, rfl⟩
  | cons op rest ih => exact ⟨(ih _).1, (ih _).2.1, (ih _).2.2⟩

/-- Running the details loop from heap `h` and cursor `y0` performs exactly
one cell update: the overlay cell receives all recorded detail draw calls,
and the cursor advances by `step` per surviving line. -/
lemma detail_fold (env : Env) (lines : List String) (h : Heap) (oref : ℕ)
    (ho : oref < h.length) (xc : ℤ) (y0 : ℕ) (font : Font) (step : ℕ) :
    lines.foldl
      (fun (st : Heap × ℕ) line =>
        (draw_text_on env st.1 oref line xc (st.2 : ℤ) font "lightgray" "black" true,
         st.2 + step))
      (h, y0)
    = (heapSet h oref
        (apply_draw_ops env (layout_detail_ops env lines xc y0 font step) (heapGet h oref)),
       y0 + step * lines.length) := by
  induction lines generalizing h y0 with
  | nil =>
    rw [layout_detail_ops]
    simp only [List.foldl_nil, apply_draw_ops, List.length_nil, Nat.mul_zero, Nat.add_zero]
    rw [heapSet_getD_self h oref ho]
  | cons line rest ih =>
    rw [List.foldl_cons]
    dsimp only
    have hlen : (draw_text_on env h oref line xc (y0 : ℤ) font "lightgray" "black" true).length
        = h.length := by
      rw [draw_text_on]
      simp
    rw [ih _ (by rw [hlen]; exact ho) (y0 + step)]
    rw [draw_text_on]
    rw [heapGet_set_self h oref _ ho, heapSet_set]
    rw [layout_detail_ops, apply_draw_ops_append]
    refine congrArg₂ Prod.mk rfl ?_
    simp only [List.length_cons]
    ring

lemma apply_draw_ops_nil (env : Env) (b : Bitmap) : apply_draw_ops env [] b = b := rfl

lemma heapGet_app_0 (h : Heap) (a : Bitmap) (t : Heap) :
    heapGet (h ++ a :: t) h.length = a := by
  have e := heapGet_append_add h (a :: t) 0
  rw [Nat.add_zero] at e
  rw [e]
  simp [heapGet]

lemma heapGet_app_1 (h : Heap) (a b : Bitmap) (t : Heap) :
    heapGet (h ++ a :: b :: t) (h.length + 1) = b := by
  rw [heapGet_append_add]
  simp [heapGet]

lemma heapGet_app_2 (h : Heap) (a b c : Bitmap) (t : Heap) :
    heapGet (h ++ a :: b :: c :: t) (h.length + 2) = c := by
  rw [heapGet_append_add]
  simp [heapGet]

lemma heapGet_app_3 (h : Heap) (a b c d : Bitmap) (t : Heap) :
    heapGet (h ++ a :: b :: c :: d :: t) (h.length + 3) = d := by
  rw [heapGet_append_add]
  simp [heapGet]

lemma heapGet_app_4 (h : Heap) (a b c d e : Bitmap) (t : Heap) :
    heapGet (h ++ a :: b :: c :: d :: e :: t) (h.length + 4) = e := by
  rw [heapGet_append_add]
  simp [heapGet]

lemma heapGet_app_5 (h : Heap) (a b c d e f : Bitmap) (t : Heap) :
    heapGet (h ++ a :: b :: c :: d :: e :: f :: t) (h.length + 5) = f := by
  rw [heapGet_append_add]
  simp [heapGet]

lemma heapSet_app_2 (h : Heap) (a b c : Bitmap) (t : Heap) (v : Bitmap) :
    heapSet (h ++ a :: b :: c :: t) (h.length + 2) v = h ++ a :: b :: v :: t := by
  rw [heapSet_append_add]
  rfl

lemma heapSet_app_4 (h : Heap) (a b c d e : Bitmap) (t : Heap) (v : Bitmap) :
    heapSet (h ++ a :: b :: c :: d :: e :: t) (h.length + 4) v = h ++ a :: b :: c :: d :: v :: t := by
  rw [heapSet_append_add]
  rfl

/-- The subtitle-and-details stage of `apply_text_layout` performs exactly
one update of the overlay cell: it receives the recorded subtitle draw
calls (if the subtitle is nonempty) followed by the recorded detail draw
calls (if the details are nonempty), with the detail cursor starting after
the subtitle spacing exactly when a subtitle was drawn. -/
lemma subdet_stage (env : Env) (H5 : Heap) (oref : ℕ) (W : ℕ) (s d : String)
    (sfont dfont : Font) (ypos spacing dstep : ℕ) (ho : oref < H5.length) :
    (if d ≠ "" then
       (details_lines d).foldl
         (fun (st : Heap × ℕ) line =>
           (draw_text_on env st.1 oref line ((W / 2 : ℕ) : ℤ) (st.2 : ℤ) dfont
              "lightgray" "black" true,
            st.2 + dstep))
         (if s ≠ "" then
            (draw_text_on env H5 oref s ((W / 2 : ℕ) : ℤ) (ypos : ℤ) sfont
               "white" "black" true,
             ypos + spacing)
          else (H5, ypos))
     else
       (if s ≠ "" then
          (draw_text_on env H5 oref s ((W / 2 : ℕ) : ℤ) (ypos : ℤ) sfont
             "white" "black" true,
           ypos + spacing)
        else (H5, ypos))).1
    = heapSet H5 oref
        (apply_draw_ops env
          ((if s ≠ "" then
              draw_text_with_outline env.hasTextbbox env.textbbox env.textsize s
                ((W / 2 : ℕ) : ℤ) (ypos : ℤ) sfont "white" "black" true
            else []) ++
           (if d ≠ "" then
              layout_detail_ops env (details_lines d) ((W / 2 : ℕ) : ℤ)
                (if s ≠ "" then ypos + spacing else ypos) dfont dstep
            else []))
          (heapGet H5 oref)) := by
  by_cases hd : d ≠ ""
  · rw [if_pos hd, if_pos hd]
    by_cases hs : s ≠ ""
    · rw [if_pos hs, if_pos hs, if_pos hs]
      have ho2 : oref <
          (draw_text_on env H5 oref s ((W / 2 : ℕ) : ℤ) (ypos : ℤ) sfont
            "white" "black" true).length := by
        rw [draw_text_on]
        simpa using ho
      rw [detail_fold env (details_lines d) _ oref ho2 _ _ dfont dstep]
      dsimp only
      rw [draw_text_on, heapGet_set_self _ _ _ ho, heapSet_set, ← apply_draw_ops_append]
    · rw [if_neg hs, if_neg hs, if_neg hs]
      rw [detail_fold env (details_lines d) _ oref ho _ _ dfont dstep]
      dsimp only
      rw [List.nil_append]
  · rw [if_neg hd, if_neg hd]
    by_cases hs : s ≠ ""
    · rw [if_pos hs, if_pos hs]
      dsimp only
      rw [draw_text_on, List.append_nil]
    · rw [if_neg hs, if_neg hs]
      dsimp only
      rw [List.append_nil]
      simp only [apply_draw_ops_nil]
      rw [heapSet_getD_self _ _ ho]

set_option maxHeartbeats 2000000 in
/-- Running `apply_text_layout` appends exactly the seven cells of
`apply_text_layout_cells` to the heap and returns the reference of the
last one; no pre-existing cell is touched. -/
lemma apply_text_layout_run (env : Env) (h : Heap) (iref : ℕ) (s d : String)
    (lref : Option ℕ) (hl : ∀ lr, lref = some lr → lr < h.length) :
    apply_text_layout env h iref s d lref =
      (h ++ apply_text_layout_cells env (heapGet h iref) s d (lref.map (heapGet h)),
       h.length + 6) := by
  rcases lref with _ | lr
  all_goals
    dsimp only [apply_text_layout, apply_text_layout_cells, text_overlay_of, layout_text_ops,
      Option.map]
    simp only [List.append_assoc, List.cons_append, List.nil_append, List.length_append,
      List.length_cons, List.length_nil, Nat.add_zero, Nat.zero_add, Nat.add_assoc,
      Nat.reduceAdd]
    simp only [heapGet_app_0, heapGet_app_1, heapGet_app_2, heapGet_app_3, heapGet_app_4,
      heapGet_app_5, heapSet_app_2, heapSet_app_4]
    set im := heapGet h iref with him
    set p1 := convert_mode im Mode.RGBA with hp1
    set W := p1.width with hW
    set Ht := p1.height with hHt
    set ov0 := image_new Mode.RGBA W Ht ⟨0, 0, 0, 0⟩ with hov0
    set dk := image_new Mode.RGBA W Ht ⟨0, 0, 0, 80⟩ with hdk
    set p2 := alpha_composite p1 dk with hp2
    set bsz := min W Ht / 15 with hbsz
    set sfont := get_font env.fontAvailable ⌊(bsz : ℚ) * 0.8⌋₊ with hsfont
    set dsz := ⌊(bsz : ℚ) * 0.5⌋₊ with hdsz
    set dfont := get_font env.fontAvailable dsz with hdfont
    set ypos := Ht / 3 with hypos
    set spacing := ⌊(bsz : ℚ) * 1.2⌋₊ with hspacing
    set dstep := ⌊(dsz : ℚ) * 1.5⌋₊ with hdstep
    rw [subdet_stage env (h ++ im :: p1 :: ov0 :: dk :: p2 :: []) (h.length + 2) W s d
      sfont dfont ypos spacing dstep
      (by simp only [List.length_append, List.length_cons, List.length_nil]; omega)]
    simp only [heapGet_app_0, heapGet_app_1, heapGet_app_2, heapGet_app_3, heapGet_app_4,
      heapGet_app_5, heapSet_app_2, heapSet_app_4]
  · simp only [List.append_assoc, List.cons_append, List.nil_append, List.length_append,
      List.length_cons, List.length_nil, Nat.add_zero, Nat.zero_add, Nat.add_assoc,
      Nat.reduceAdd]
  · rw [heapGet_append_left _ (hl lr rfl)]
    simp only [List.append_assoc, List.cons_append, List.nil_append, List.length_append,
      List.length_cons, List.length_nil, Nat.add_zero, Nat.zero_add, Nat.add_assoc,
      Nat.reduceAdd]

lemma heapGet_app_6 (h : Heap) (a b c d e f g : Bitmap) (t : Heap) :
    heapGet (h ++ a :: b :: c :: d :: e :: f :: g :: t) (h.length + 6) = g := by
  rw [heapGet_append_add]
  simp [heapGet]

lemma heapSet_app_0 (h : Heap) (a : Bitmap) (t : Heap) (v : Bitmap) :
    heapSet (h ++ a :: t) h.length v = h ++ v :: t := by
  have e := heapSet_append_add h (a :: t) 0 v
  rw [Nat.add_zero] at e
  rw [e]
  rfl

/-- Running `process_logo` on a present logo without a fault copies the
logo, thumbnails the copy in place, and converts it to RGBA when needed,
allocating only fresh cells. -/
lemma process_logo_run (resample : Bitmap → ℕ → ℕ → ℕ → ℕ → Pixel) (h : Heap) (r : ℕ)
    (ms : ℕ) :
    process_logo resample false h (some r) ms =
      (if (thumbnail_bitmap resample (heapGet h r) ms ms).mode ≠ Mode.RGBA then
        (h ++ [thumbnail_bitmap resample (heapGet h r) ms ms,
               convert_mode (thumbnail_bitmap resample (heapGet h r) ms ms) Mode.RGBA],
         some (h.length + 1))
      else
        (h ++ [thumbnail_bitmap resample (heapGet h r) ms ms], some h.length)) := by
  dsimp only [process_logo]
  rw [if_neg (by simp)]
  rw [heapGet_app_0, heapSet_app_0, heapGet_app_0]
  simp only [List.length_append, List.length_cons, List.length_nil, Nat.add_zero,
    Nat.zero_add, Nat.reduceAdd, List.append_assoc, List.cons_append, List.nil_append]

/-- Claim C2: in `apply_text_layout`, the layers are composited in this fixed
order: the RGBA working copy of the background is darkened by
alpha-compositing a uniform black layer with alpha 80/255 over it; the
processed logo, when present, is pasted onto that darkened base with its
alpha as mask at `(width - logoWidth - 40, 40)`; the text overlay is
alpha-composited on top; alpha is dropped.  So the logo sits above the
darkening layer and below the text layer. -/
theorem claim_C2_layer_order (env : Env) (h : Heap) (iref : ℕ) (s d : String)
    (lr : ℕ) (hlr : lr < h.length) :
    heapGet (apply_text_layout env h iref s d (some lr)).1
        (apply_text_layout env h iref s d (some lr)).2 =
      compose_layers_spec (convert_mode (heapGet h iref) Mode.RGBA) 80
        (some (heapGet h lr))
        (text_overlay_of env (convert_mode (heapGet h iref) Mode.RGBA).width
          (convert_mode (heapGet h iref) Mode.RGBA).height s d) := by
  rw [apply_text_layout_run env h iref s d (some lr)
    (fun x hx => by injection hx with he; exact he ▸ hlr)]
  dsimp only [apply_text_layout_cells, compose_layers_spec, Option.map]
  rw [heapGet_app_6]

/-- Claim C10: the result of `apply_text_layout` has exactly the width and
height of the input background and is an opaque RGB bitmap, for every
subtitle, details and (valid or absent) logo. -/
theorem claim_C10_output_invariants (env : Env) (h : Heap) (iref : ℕ) (s d : String)
    (lref : Option ℕ) (hl : ∀ lr, lref = some lr → lr < h.length) :
    (heapGet (apply_text_layout env h iref s d lref).1
        (apply_text_layout env h iref s d lref).2).width = (heapGet h iref).width ∧
    (heapGet (apply_text_layout env h iref s d lref).1
        (apply_text_layout env h iref s d lref).2).height = (heapGet h iref).height ∧
    (heapGet (apply_text_layout env h iref s d lref).1
        (apply_text_layout env h iref s d lref).2).mode = Mode.RGB := by
  rw [apply_text_layout_run env h iref s d lref hl]
  rcases lref with _ | lr <;>
    dsimp only [apply_text_layout_cells, Option.map] <;>
    rw [heapGet_app_6] <;>
    exact ⟨rfl, rfl, rfl⟩

theorem claim_C10_output_invariants_witness :
    ((heapGet (apply_text_layout env0 heap2 0 "Tech Summit 2024" "Dec 15\nVenue" none).1
        (apply_text_layout env0 heap2 0 "Tech Summit 2024" "Dec 15\nVenue" none).2).width
      = (heapGet heap2 0).width ∧
     (heapGet (apply_text_layout env0 heap2 0 "Tech Summit 2024" "Dec 15\nVenue" none).1
        (apply_text_layout env0 heap2 0 "Tech Summit 2024" "Dec 15\nVenue" none).2).height
      = (heapGet heap2 0).height ∧
     (heapGet (apply_text_layout env0 heap2 0 "Tech Summit 2024" "Dec 15\nVenue" none).1
        (apply_text_layout env0 heap2 0 "Tech Summit 2024" "Dec 15\nVenue" none).2).mode
      = Mode.RGB) :=
  claim_C10_output_invariants env0 heap2 0 "Tech Summit 2024" "Dec 15\nVenue" none
    (fun lr hlr => nomatch hlr)

/-- Claim C9: neither `apply_text_layout` nor `process_logo` mutates its
input bitmaps: after either call every pre-existing heap cell — in
particular the input background and the input logo — holds exactly the
bitmap it held before. -/
theorem claim_C9_no_input_mutation (env : Env) (h : Heap) (iref : ℕ) (s d : String)
    (lref : Option ℕ) (resample : Bitmap → ℕ → ℕ → ℕ → ℕ → Pixel) (fault : Bool)
    (r : ℕ) (ms : ℕ) (hi : iref < h.length) (hr : r < h.length)
    (hl : ∀ lr, lref = some lr → lr < h.length) :
    heapGet (apply_text_layout env h iref s d lref).1 iref = heapGet h iref ∧
    (∀ lr, lref = some lr →
      heapGet (apply_text_layout env h iref s d lref).1 lr = heapGet h lr) ∧
    heapGet (process_logo resample fault h (some r) ms).1 r = heapGet h r ∧
    heapGet (process_logo resample fault h none ms).1 r = heapGet h r := by
  rw [apply_text_layout_run env h iref s d lref hl]
  refine ⟨heapGet_append_left _ hi, fun lr hlr => heapGet_append_left _ (hl lr hlr), ?_, rfl⟩
  cases fault
  · rw [process_logo_run]
    by_cases hm : (thumbnail_bitmap resample (heapGet h r) ms ms).mode ≠ Mode.RGBA
    · rw [if_pos hm]
      exact heapGet_append_left _ hr
    · rw [if_neg hm]
      exact heapGet_append_left _ hr
  · rfl

theorem claim_C9_no_input_mutation_witness :
    (0 : ℕ) < 2 ∧ (1 : ℕ) < 2 ∧
    (heapGet (apply_text_layout env0 heap2 0 "s" "d" (some 1)).1 0 = heapGet heap2 0 ∧
     (∀ lr, (some 1 : Option ℕ) = some lr →
       heapGet (apply_text_layout env0 heap2 0 "s" "d" (some 1)).1 lr = heapGet heap2 lr) ∧
     heapGet (process_logo env0.resample false heap2 (some 1) 200).1 1 = heapGet heap2 1 ∧
     heapGet (process_logo env0.resample false heap2 none 200).1 1 = heapGet heap2 1) :=
  ⟨by decide, by decide,
   claim_C9_no_input_mutation env0 heap2 0 "s" "d" (some 1) env0.resample false 1 200
     (by decide) (by decide)
     (fun lr hlr => by injection hlr with he; subst he; decide)⟩

/-- Claim C6: `process_logo` returns absent (never an error) when no logo is
supplied, and returns absent on an internal fault; `apply_text_layout`
with an absent logo is identical to `apply_text_layout` with the
logo-paste step removed. -/
theorem claim_C6_absent_logo :
    (∀ (resample : Bitmap → ℕ → ℕ → ℕ → ℕ → Pixel) (fault : Bool) (h : Heap) (ms : ℕ),
      process_logo resample fault h none ms = (h, none)) ∧
    (∀ (resample : Bitmap → ℕ → ℕ → ℕ → ℕ → Pixel) (h : Heap) (r : ℕ) (ms : ℕ),
      process_logo resample true h (some r) ms = (h, none)) ∧
    (∀ (env : Env) (h : Heap) (iref : ℕ) (s d : String),
      apply_text_layout env h iref s d none = apply_text_layout_skip_logo env h iref s d) :=
  ⟨fun _ _ _ _ => rfl, fun _ _ _ _ => rfl, fun _ _ _ _ _ => rfl⟩

/-- Claim C4: the raw details string is split on newlines into
whitespace-trimmed lines; lines empty after trimming are dropped; the rest
are rendered in original order, the cursor advancing by the inter-line
step after each rendered line; and the string with embedded blank lines
renders exactly like the same string without them, so blank lines consume
no vertical space — in particular the example yields exactly the two
lines A and B. -/
theorem claim_C4_detail_line_filtering (env : Env) (h : Heap) (iref : ℕ)
    (subtitle : String) (lref : Option ℕ) (d line : String) (xc : ℤ) (y0 : ℕ)
    (f : Font) (st : ℕ) (rest : List String)
    (hl : ∀ lr, lref = some lr → lr < h.length) :
    (∀ l0 ∈ details_lines d, l0 ≠ "" ∧ ∃ raw ∈ py_split_nl d, l0 = py_strip raw) ∧
    List.Sublist (details_lines d) ((py_split_nl d).map py_strip) ∧
    details_lines "A\n\n  \nB" = ["A", "B"] ∧
    layout_detail_ops env (line :: rest) xc y0 f st =
      draw_text_with_outline env.hasTextbbox env.textbbox env.textsize line xc (y0 : ℤ) f
        "lightgray" "black" true
      ++ layout_detail_ops env rest xc (y0 + st) f st ∧
    heapGet (apply_text_layout env h iref subtitle "A\n\n  \nB" lref).1 (h.length + 2) =
      heapGet (apply_text_layout env h iref subtitle "A\nB" lref).1 (h.length + 2) := by
  refine ⟨?_, ?_, ?_, rfl, ?_⟩
  · intro l0 hl0
    rw [details_lines, List.mem_filter] at hl0
    obtain ⟨hmem, hne⟩ := hl0
    refine ⟨by simpa using hne, ?_⟩
    obtain ⟨raw, hraw, hr0⟩ := List.mem_map.mp hmem
    exact ⟨raw, hraw, hr0.symm⟩
  · exact List.filter_sublist _
  · rfl
  · rw [apply_text_layout_run env h iref subtitle _ lref hl,
      apply_text_layout_run env h iref subtitle _ lref hl]
    dsimp only [apply_text_layout_cells]
    rw [heapGet_app_2, heapGet_app_2]
    rfl

theorem claim_C2_layer_order_witness :
    (1 : ℕ) < heap2.length ∧
    heapGet (apply_text_layout env0 heap2 0 "Summit" "Dec 15" (some 1)).1
        (apply_text_layout env0 heap2 0 "Summit" "Dec 15" (some 1)).2 =
      compose_layers_spec (convert_mode (heapGet heap2 0) Mode.RGBA) 80
        (some (heapGet heap2 1))
        (text_overlay_of env0 (convert_mode (heapGet heap2 0) Mode.RGBA).width
          (convert_mode (heapGet heap2 0) Mode.RGBA).height "Summit" "Dec 15") :=
  ⟨by decide, claim_C2_layer_order env0 heap2 0 "Summit" "Dec 15" 1 (by decide)⟩

theorem claim_C4_detail_line_filtering_witness :
    (∀ l0 ∈ details_lines "one\n\ntwo", l0 ≠ "" ∧
      ∃ raw ∈ py_split_nl "one\n\ntwo", l0 = py_strip raw) ∧
    List.Sublist (details_lines "one\n\ntwo") ((py_split_nl "one\n\ntwo").map py_strip) ∧
    details_lines "A\n\n  \nB" = ["A", "B"] ∧
    layout_detail_ops env0 ("L" :: []) 3 5 Font.builtin 7 =
      draw_text_with_outline env0.hasTextbbox env0.textbbox env0.textsize "L" 3 (5 : ℤ)
        Font.builtin "lightgray" "black" true
      ++ layout_detail_ops env0 [] 3 (5 + 7) Font.builtin 7 ∧
    heapGet (apply_text_layout env0 heap2 0 "Sub" "A\n\n  \nB" none).1 (heap2.length + 2) =
      heapGet (apply_text_layout env0 heap2 0 "Sub" "A\nB" none).1 (heap2.length + 2) :=
  claim_C4_detail_line_filtering env0 heap2 0 "Sub" none "one\n\ntwo" "L" 3 5
    Font.builtin 7 [] (fun lr hlr => nomatch hlr)

lemma round_aspect_bounds (q : ℚ) (key : ℤ → ℚ) (hq : 0 < q) :
    1 ≤ round_aspect q key ∧ |((round_aspect q key : ℤ) : ℚ) - q| ≤ 1 ∧
    round_aspect q key ≤ max ⌈q⌉ 1 := by
  have hfc : (⌊q⌋ : ℤ) ≤ ⌈q⌉ := Int.floor_le_ceil q
  have hfloor : |((⌊q⌋ : ℤ) : ℚ) - q| ≤ 1 := by
    rw [abs_le]
    constructor
    · linarith [Int.sub_one_lt_floor q]
    · linarith [Int.floor_le q]
  have hceil : |((⌈q⌉ : ℤ) : ℚ) - q| ≤ 1 := by
    rw [abs_le]
    constructor
    · linarith [Int.le_ceil q]
    · linarith [Int.ceil_lt_add_one q]
  rw [round_aspect]
  rcases le_or_lt 1 (if key ⌈q⌉ < key ⌊q⌋ then ⌈q⌉ else ⌊q⌋) with h1 | h1
  · rw [max_eq_left h1]
    refine ⟨h1, ?_, ?_⟩
    · split
      · exact hceil
      · exact hfloor
    · split
      · exact le_max_left _ _
      · exact le_trans hfc (le_max_left _ _)
  · rw [max_eq_right (le_of_lt h1)]
    refine ⟨le_refl 1, ?_, le_max_right _ _⟩
    have hq1 : q < 1 := by
      rcases lt_or_le q 1 with hlt | hge
      · exact hlt
      · exfalso
        have hf1 : (1 : ℤ) ≤ ⌊q⌋ := by
          rw [Int.le_floor]
          exact_mod_cast hge
        have hc1 : (1 : ℤ) ≤ ⌈q⌉ := le_trans hf1 hfc
        revert h1
        split <;> omega
    rw [abs_le]
    constructor <;> push_cast <;> linarith

set_option maxHeartbeats 1000000 in
lemma thumbnail_size_spec (w h : ℕ) (hw : 0 < w) (hh : 0 < h) :
    (thumbnail_size w h 200 200).1 ≤ 200 ∧ (thumbnail_size w h 200 200).2 ≤ 200 ∧
    |((thumbnail_size w h 200 200).1 : ℤ) * (h : ℤ) -
      ((thumbnail_size w h 200 200).2 : ℤ) * (w : ℤ)| ≤ ((max w h : ℕ) : ℤ) := by
  have hw0 : (0 : ℚ) < (w : ℚ) := by exact_mod_cast hw
  have hh0 : (0 : ℚ) < (h : ℚ) := by exact_mod_cast hh
  rw [thumbnail_size]
  by_cases hfit : 200 ≥ w ∧ 200 ≥ h
  · rw [if_pos hfit]
    refine ⟨hfit.1, hfit.2, ?_⟩
    simp [Int.mul_comm]
  · rw [if_neg hfit]
    dsimp only
    by_cases hbr : ((200 : ℕ) : ℚ) / ((200 : ℕ) : ℚ) ≥ ((w : ℕ) : ℚ) / ((h : ℕ) : ℚ)
    · rw [if_pos hbr]
      have hdiv : (w : ℚ) / (h : ℚ) ≤ 1 := by
        have h200 : ((200 : ℕ) : ℚ) / ((200 : ℕ) : ℚ) = 1 := by norm_num
        linarith [hbr, h200.symm.le]
      have hq : 0 < ((200 : ℕ) : ℚ) * ((w : ℚ) / (h : ℚ)) :=
        mul_pos (by norm_num) (div_pos hw0 hh0)
      obtain ⟨hge1, habs, hle⟩ :=
        round_aspect_bounds (((200 : ℕ) : ℚ) * ((w : ℚ) / (h : ℚ)))
          (fun n => |(w : ℚ) / (h : ℚ) - (n : ℚ) / ((200 : ℕ) : ℚ)|) hq
      set m := round_aspect (((200 : ℕ) : ℚ) * ((w : ℚ) / (h : ℚ)))
        (fun n => |(w : ℚ) / (h : ℚ) - (n : ℚ) / ((200 : ℕ) : ℚ)|) with hm
      have hceil : ⌈((200 : ℕ) : ℚ) * ((w : ℚ) / (h : ℚ))⌉ ≤ (200 : ℤ) := by
        rw [Int.ceil_le]
        push_cast
        linarith [mul_le_mul_of_nonneg_left hdiv (by norm_num : (0 : ℚ) ≤ 200)]
      have hm200 : m ≤ 200 := le_trans hle (max_le hceil (by norm_num))
      have hmnn : ((m.toNat : ℤ)) = m := Int.toNat_of_nonneg (by omega)
      refine ⟨Int.toNat_le.mpr hm200, by norm_num, ?_⟩
      have key2 : |((m : ℤ) : ℚ) * (h : ℚ) - 200 * (w : ℚ)| ≤ (h : ℚ) := by
        have heq : ((m : ℤ) : ℚ) * (h : ℚ) - 200 * (w : ℚ)
            = (((m : ℤ) : ℚ) - ((200 : ℕ) : ℚ) * ((w : ℚ) / (h : ℚ))) * (h : ℚ) := by
          field_simp
        rw [heq, abs_mul, abs_of_nonneg hh0.le]
        calc |((m : ℤ) : ℚ) - ((200 : ℕ) : ℚ) * ((w : ℚ) / (h : ℚ))| * (h : ℚ)
            ≤ 1 * (h : ℚ) := mul_le_mul_of_nonneg_right habs hh0.le
          _ = (h : ℚ) := one_mul _
      have keyz : |m * (h : ℤ) - 200 * (w : ℤ)| ≤ (h : ℤ) := by exact_mod_cast key2
      have hmaxz : (h : ℤ) ≤ ((max w h : ℕ) : ℤ) := by exact_mod_cast le_max_right w h
      have final : |m * (h : ℤ) - 200 * (w : ℤ)| ≤ ((max w h : ℕ) : ℤ) :=
        le_trans keyz hmaxz
      rw [hmnn]
      push_cast
      push_cast at final
      linarith [abs_le.mp final, abs_le.mp (le_refl |m * (h : ℤ) - 200 * (w : ℤ)|),
        neg_abs_le (m * ((h : ℕ) : ℤ) - 200 * ((w : ℕ) : ℤ)),
        le_abs_self (m * ((h : ℕ) : ℤ) - 200 * ((w : ℕ) : ℤ))]
    · rw [if_neg hbr]
      have hdiv : 1 < (w : ℚ) / (h : ℚ) := by
        have h200 : ((200 : ℕ) : ℚ) / ((200 : ℕ) : ℚ) = 1 := by norm_num
        push_neg at hbr
        linarith [hbr, h200.symm.le]
      have hq : 0 < ((200 : ℕ) : ℚ) / ((w : ℚ) / (h : ℚ)) :=
        div_pos (by norm_num) (div_pos hw0 hh0)
      obtain ⟨hge1, habs, hle⟩ :=
        round_aspect_bounds (((200 : ℕ) : ℚ) / ((w : ℚ) / (h : ℚ)))
          (fun n => if n = 0 then 0 else |(w : ℚ) / (h : ℚ) - ((200 : ℕ) : ℚ) / (n : ℚ)|) hq
      set m := round_aspect (((200 : ℕ) : ℚ) / ((w : ℚ) / (h : ℚ)))
        (fun n => if n = 0 then 0 else |(w : ℚ) / (h : ℚ) - ((200 : ℕ) : ℚ) / (n : ℚ)|) with hm
      have hq200 : ((200 : ℕ) : ℚ) / ((w : ℚ) / (h : ℚ)) ≤ 200 := by
        rw [div_le_iff₀ (div_pos hw0 hh0)]
        push_cast
        nlinarith [hdiv]
      have hceil : ⌈((200 : ℕ) : ℚ) / ((w : ℚ) / (h : ℚ))⌉ ≤ (200 : ℤ) := by
        rw [Int.ceil_le]
        exact_mod_cast hq200
      have hm200 : m ≤ 200 := le_trans hle (max_le hceil (by norm_num))
      have hmnn : ((m.toNat : ℤ)) = m := Int.toNat_of_nonneg (by omega)
      refine ⟨by norm_num, Int.toNat_le.mpr hm200, ?_⟩
      have key2 : |((m : ℤ) : ℚ) * (w : ℚ) - 200 * (h : ℚ)| ≤ (w : ℚ) := by
        have heq : ((m : ℤ) : ℚ) * (w : ℚ) - 200 * (h : ℚ)
            = (((m : ℤ) : ℚ) - ((200 : ℕ) : ℚ) / ((w : ℚ) / (h : ℚ))) * (w : ℚ) := by
          field_simp
        rw [heq, abs_mul, abs_of_nonneg hw0.le]
        calc |((m : ℤ) : ℚ) - ((200 : ℕ) : ℚ) / ((w : ℚ) / (h : ℚ))| * (w : ℚ)
            ≤ 1 * (w : ℚ) := mul_le_mul_of_nonneg_right habs hw0.le
          _ = (w : ℚ) := one_mul _
      have keyz : |m * (w : ℤ) - 200 * (h : ℤ)| ≤ (w : ℤ) := by exact_mod_cast key2
      have hmaxz : (w : ℤ) ≤ ((max w h : ℕ) : ℤ) := by exact_mod_cast le_max_left w h
      have final : |m * (w : ℤ) - 200 * (h : ℤ)| ≤ ((max w h : ℕ) : ℤ) :=
        le_trans keyz hmaxz
      rw [hmnn]
      push_cast
      push_cast at final
      rw [abs_sub_comm] at final
      linarith [abs_le.mp final, neg_abs_le ((200 : ℤ) * ((h : ℕ) : ℤ) - m * ((w : ℕ) : ℤ)),
        le_abs_self ((200 : ℤ) * ((h : ℕ) : ℤ) - m * ((w : ℕ) : ℤ))]

lemma thumbnail_bitmap_dims (resample : Bitmap → ℕ → ℕ → ℕ → ℕ → Pixel) (b : Bitmap)
    (hw : 0 < b.width) (hh : 0 < b.height) :
    (thumbnail_bitmap resample b 200 200).width ≤ 200 ∧
    (thumbnail_bitmap resample b 200 200).height ≤ 200 ∧
    |((thumbnail_bitmap resample b 200 200).width : ℤ) * (b.height : ℤ) -
      ((thumbnail_bitmap resample b 200 200).height : ℤ) * (b.width : ℤ)|
      ≤ ((max b.width b.height : ℕ) : ℤ) ∧
    (thumbnail_bitmap resample b 200 200).mode = b.mode := by
  rw [thumbnail_bitmap]
  by_cases hfit : 200 ≥ b.width ∧ 200 ≥ b.height
  · rw [if_pos hfit]
    exact ⟨hfit.1, hfit.2, by simp [Int.mul_comm], rfl⟩
  · rw [if_neg hfit]
    have hts := thumbnail_size_spec b.width b.height hw hh
    exact ⟨hts.1, hts.2.1, hts.2.2, rfl⟩

/-- Claim C5: for every present logo with positive dimensions and
`max_size = 200`, `process_logo` without a fault returns a reference to a
bitmap whose width and height are both at most 200, whose aspect ratio
matches the input within integer-rounding tolerance, and whose pixel
format is RGBA. -/
theorem claim_C5_logo_bounds (resample : Bitmap → ℕ → ℕ → ℕ → ℕ → Pixel) (h : Heap)
    (r : ℕ) (hw : 0 < (heapGet h r).width) (hh : 0 < (heapGet h r).height) :
    ∃ r2, (process_logo resample false h (some r) 200).2 = some r2 ∧
      (heapGet (process_logo resample false h (some r) 200).1 r2).width ≤ 200 ∧
      (heapGet (process_logo resample false h (some r) 200).1 r2).height ≤ 200 ∧
      |((heapGet (process_logo resample false h (some r) 200).1 r2).width : ℤ)
          * ((heapGet h r).height : ℤ) -
        ((heapGet (process_logo resample false h (some r) 200).1 r2).height : ℤ)
          * ((heapGet h r).width : ℤ)|
        ≤ ((max (heapGet h r).width (heapGet h r).height : ℕ) : ℤ) ∧
      (heapGet (process_logo resample false h (some r) 200).1 r2).mode = Mode.RGBA := by
  obtain ⟨h1, h2, h3, h4⟩ := thumbnail_bitmap_dims resample (heapGet h r) hw hh
  rw [process_logo_run]
  by_cases hm : (thumbnail_bitmap resample (heapGet h r) 200 200).mode ≠ Mode.RGBA
  · rw [if_pos hm]
    refine ⟨h.length + 1, rfl, ?_⟩
    rw [heapGet_app_1]
    exact ⟨h1, h2, h3, rfl⟩
  · rw [if_neg hm]
    push_neg at hm
    refine ⟨h.length, rfl, ?_⟩
    rw [heapGet_app_0]
    exact ⟨h1, h2, h3, hm⟩

theorem claim_C5_logo_bounds_witness :
    0 < (heapGet heap2 1).width ∧ 0 < (heapGet heap2 1).height ∧
    (∃ r2, (process_logo env0.resample false heap2 (some 1) 200).2 = some r2 ∧
      (heapGet (process_logo env0.resample false heap2 (some 1) 200).1 r2).width ≤ 200 ∧
      (heapGet (process_logo env0.resample false heap2 (some 1) 200).1 r2).height ≤ 200 ∧
      |((heapGet (process_logo env0.resample false heap2 (some 1) 200).1 r2).width : ℤ)
          * ((heapGet heap2 1).height : ℤ) -
        ((heapGet (process_logo env0.resample false heap2 (some 1) 200).1 r2).height : ℤ)
          * ((heapGet heap2 1).width : ℤ)|
        ≤ ((max (heapGet heap2 1).width (heapGet heap2 1).height : ℕ) : ℤ) ∧
      (heapGet (process_logo env0.resample false heap2 (some 1) 200).1 r2).mode
        = Mode.RGBA) :=
  ⟨by decide, by decide, claim_C5_logo_bounds env0.resample heap2 1 (by decide) (by decide)⟩

/-- Claim C1 (refuted by the code — missing `import time`): when a token is
present and the API answers HTTP 503 (model loading), the handler reaches
`time.sleep(15)` and raises `NameError` because the `time` module is never
imported; the error propagates through `create_background_via_api` and out
of `generate_simple_poster`, so the entry point does not always return a
poster.  The other provider-failure paths do recover to the gradient
fallback as the claim describes. -/
theorem claim_C1_api_503_raises :
    create_background_via_api "p" (some "hf-token")
        (fun _ => ApiResp.httpStatus 503 "loading") 768 1024 3
      = Except.error (PyErr.nameError "time") ∧
    generate_simple_poster env0 (some "hf-token")
        (fun _ => ApiResp.httpStatus 503 "loading") false "p" "sub" "det" none
        "3:4 - Poster"
      = Except.error (PyErr.nameError "time") ∧
    create_background_via_api "p" none (fun _ => ApiResp.httpStatus 503 "loading")
        768 1024 3
      = Except.ok (create_fallback_background 768 1024) ∧
    create_background_via_api "p" (some "hf-token")
        (fun _ => ApiResp.requestException "connection reset") 768 1024 3
      = Except.ok (create_fallback_background 768 1024) :=
  ⟨rfl, rfl, rfl, rfl⟩

end PosterApp
